import Mathlib

/-!
Verification of the capability-diffing tools in `cmd/capslock-git-diff`.

The development shallowly embeds the two Go programs in that directory:
the git-revision diff tool (`AnalyzeAtRevision`, `populateMap`,
`diffCapabilityInfoLists`, `main`) and the version comparison tool
(`MakeWorkspace`, `CreateCapabilitiesFile`, `ComparePackages`, `main`).
Pure data manipulation becomes Lean functions; interactions with the
operating system (temporary directories, `git`, `chdir`, the `capslock`
subprocess) are modelled by an environment of oracles, and each run
records the trace of external actions it performs.
-/

namespace Capslock

/-- A source location attached to a call-path frame, mirroring the
`Site` message consumed from the analyzer output. -/
structure Site where
  filename : String
  line : Nat
  column : Nat
deriving DecidableEq, Repr

/-- One frame of a call path: an optional source location and a display
name, mirroring the `Function` message of the analyzer output. -/
structure Function where
  site : Option Site
  name : String
deriving DecidableEq, Repr

/-- One capability finding: the capability tag (the analyzer's enum,
embedded as its numeric value), the identifying package directory, and
the justifying call path.  Mirrors the fields of `CapabilityInfo` that
the tool consumes. -/
structure CapabilityInfo where
  capability : Nat
  packageDir : String
  path : List Function
deriving DecidableEq, Repr

/-- The analyzer output list, as in `cpb.CapabilityInfoList`. -/
abbrev CapabilityInfoList := List CapabilityInfo

/-- The map key used by the diff: `type mapKey struct { key string;
capability cpb.Capability }`. -/
structure mapKey where
  key : String
  capability : Nat
deriving DecidableEq, Repr

/-- The key under which `populateMap` stores a record:
`mapKey{capability: ci.GetCapability(), key: ci.GetPackageDir()}`. -/
def keyOf (ci : CapabilityInfo) : mapKey :=
  ⟨ci.packageDir, ci.capability⟩

/-- A Go map from `mapKey` to records, embedded as a function into
`Option`. -/
abbrev capabilitiesMap := mapKey → Option CapabilityInfo

/-- One iteration of the loop body of `populateMap`: the assignment
`m[mk] = ci`, which overwrites any previous binding of the key. -/
def updateMap (m : capabilitiesMap) (ci : CapabilityInfo) : capabilitiesMap :=
  fun k => if k = keyOf ci then some ci else m k

/-- `populateMap`: fold the assignment over the records in input order,
starting from the empty map. -/
def populateMap (cil : CapabilityInfoList) : capabilitiesMap :=
  cil.foldl updateMap (fun _ => none)

/-- The key set of a snapshot map, enumerated as a list (Go iterates the
map in unspecified order; the enumeration order is irrelevant because the
diff sorts the keys before use). -/
def keysOf (cil : CapabilityInfoList) : List mapKey :=
  (cil.map keyOf).dedup

/-- The comparison used by the `sort.Slice` call in
`diffCapabilityInfoLists`: capability tag first, then key string. -/
def keyLess (a b : mapKey) : Prop :=
  a.capability < b.capability ∨ (a.capability = b.capability ∧ a.key < b.key)

/-- The reflexive closure of `keyLess`, used as the sorting relation. -/
def keyLE (a b : mapKey) : Prop :=
  a.capability < b.capability ∨ (a.capability = b.capability ∧ a.key ≤ b.key)

instance : DecidableRel keyLess := fun a b => by
  unfold keyLess; infer_instance

instance : DecidableRel keyLE := fun a b => by
  unfold keyLE; infer_instance

instance : IsTotal mapKey keyLE where
  total a b := by
    rcases Nat.lt_trichotomy a.capability b.capability with h | h | h
    · exact Or.inl (Or.inl h)
    · rcases le_total a.key b.key with h' | h'
      · exact Or.inl (Or.inr ⟨h, h'⟩)
      · exact Or.inr (Or.inr ⟨h.symm, h'⟩)
    · exact Or.inr (Or.inl h)

instance : IsTrans mapKey keyLE where
  trans a b c hab hbc := by
    rcases hab with h1 | ⟨h1, h1'⟩
    · rcases hbc with h2 | ⟨h2, _⟩
      · exact Or.inl (h1.trans h2)
      · exact Or.inl (h2 ▸ h1)
    · rcases hbc with h2 | ⟨h2, h2'⟩
      · exact Or.inl (h1 ▸ h2)
      · exact Or.inr ⟨h1.trans h2, h1'.trans h2'⟩

instance : IsAntisymm mapKey keyLE where
  antisymm a b hab hba := by
    rcases hab with h1 | ⟨h1, h1'⟩
    · rcases hba with h2 | ⟨h2, _⟩
      · exact absurd (h1.trans h2) (lt_irrefl _)
      · exact absurd h1 (h2 ▸ lt_irrefl _)
    · rcases hba with h2 | ⟨h2, h2'⟩
      · exact absurd h2 (h1 ▸ lt_irrefl _)
      · cases a; cases b
        simp only [mapKey.mk.injEq]
        exact ⟨le_antisymm h1' h2', h1⟩

/-- The side of a diff entry: present only in `current` (printed with a
leading marker for gains) or only in `baseline` (losses). -/
inductive Side where
  | gained
  | lost
deriving DecidableEq, Repr

/-- One emitted difference: the side, the key, and the call path that the
loop body of `diffCapabilityInfoLists` prints for that key. -/
structure DiffEntry where
  side : Side
  key : mapKey
  path : List Function
deriving DecidableEq, Repr

/-- The body of the reporting loop of `diffCapabilityInfoLists` at one
key: a gained entry with current's path when the key is only in the
current map, a lost entry with baseline's path when it is only in the
baseline map, and nothing when it is in both. -/
def diffEntryOf (bm cm : capabilitiesMap) (k : mapKey) : Option DiffEntry :=
  match bm k, cm k with
  | none, some ci => some ⟨Side.gained, k, ci.path⟩
  | some ci, none => some ⟨Side.lost, k, ci.path⟩
  | none, none => none
  | some _, some _ => none

/-- The key list built by `diffCapabilityInfoLists` before sorting: all
keys of the baseline map, then the keys of the current map absent from
the baseline map. -/
def combinedKeys (baseline current : CapabilityInfoList) : List mapKey :=
  keysOf baseline ++
    (keysOf current).filter (fun k => (populateMap baseline k).isNone)

/-- The key list after the `sort.Slice` call.  The slice holds pairwise
distinct keys and the comparison is a strict total order, so the sorted
result is unique; we realize it with insertion sort on `keyLE`. -/
def diffKeys (baseline current : CapabilityInfoList) : List mapKey :=
  List.insertionSort keyLE (combinedKeys baseline current)

/-- The sequence of diff entries emitted by `diffCapabilityInfoLists`,
in emission order. -/
def diffEntries (baseline current : CapabilityInfoList) : List DiffEntry :=
  (diffKeys baseline current).filterMap
    (diffEntryOf (populateMap baseline) (populateMap current))

/-- The `different` flag returned by `diffCapabilityInfoLists`: set
exactly when some entry was emitted. -/
def diffCapabilityInfoLists (baseline current : CapabilityInfoList) : Bool :=
  !(diffEntries baseline current).isEmpty

/-! ## Lemmas about the snapshot map -/

theorem foldl_updateMap_eq (cil : CapabilityInfoList) (m : capabilitiesMap)
    (k : mapKey) :
    cil.foldl updateMap m k =
      ((cil.filter fun ci => decide (keyOf ci = k)).getLast? <|> m k) := by
  induction cil using List.reverseRecOn with
  | nil => rfl
  | append_singleton l a ih =>
    rw [List.foldl_append, List.foldl_cons, List.foldl_nil, List.filter_append]
    by_cases hp : keyOf a = k
    · rw [List.filter_cons, if_pos (decide_eq_true hp), List.filter_nil,
        List.getLast?_concat]
      show (if k = keyOf a then some a else l.foldl updateMap m k) = some a
      rw [if_pos hp.symm]
    · rw [List.filter_cons, if_neg (fun h => hp (of_decide_eq_true h)),
        List.filter_nil, List.append_nil]
      show (if k = keyOf a then some a else l.foldl updateMap m k) = _
      rw [if_neg (fun h => hp h.symm), ih]

theorem populateMap_eq_getLast (cil : CapabilityInfoList) (k : mapKey) :
    populateMap cil k = (cil.filter fun ci => decide (keyOf ci = k)).getLast? := by
  unfold populateMap
  rw [foldl_updateMap_eq]
  cases (cil.filter fun ci => decide (keyOf ci = k)).getLast? <;> rfl

theorem populateMap_isSome_iff (cil : CapabilityInfoList) (k : mapKey) :
    (populateMap cil k).isSome = true ↔ k ∈ cil.map keyOf := by
  rw [populateMap_eq_getLast, List.getLast?_isSome]
  constructor
  · intro hne
    rcases List.exists_mem_of_ne_nil _ hne with ⟨ci, hci⟩
    rw [List.mem_filter] at hci
    exact List.mem_map.mpr ⟨ci, hci.1, of_decide_eq_true hci.2⟩
  · intro hmem
    rcases List.mem_map.mp hmem with ⟨ci, hci, hk⟩
    intro hnil
    have : ci ∈ cil.filter fun ci => decide (keyOf ci = k) :=
      List.mem_filter.mpr ⟨hci, decide_eq_true hk⟩
    rw [hnil] at this
    exact absurd this (List.not_mem_nil ci)

theorem mem_keysOf_iff (cil : CapabilityInfoList) (k : mapKey) :
    k ∈ keysOf cil ↔ (populateMap cil k).isSome = true := by
  rw [keysOf, List.mem_dedup, populateMap_isSome_iff]

theorem nodup_keysOf (cil : CapabilityInfoList) : (keysOf cil).Nodup :=
  List.nodup_dedup _

/-! ## Lemmas about the combined key list and its sorted form -/

theorem mem_combinedKeys_iff (b c : CapabilityInfoList) (k : mapKey) :
    k ∈ combinedKeys b c ↔
      ((populateMap b k).isSome = true ∨ (populateMap c k).isSome = true) := by
  unfold combinedKeys
  rw [List.mem_append, List.mem_filter, mem_keysOf_iff, mem_keysOf_iff]
  constructor
  · rintro (h | ⟨h, _⟩)
    · exact Or.inl h
    · exact Or.inr h
  · rintro (h | h)
    · exact Or.inl h
    · by_cases hb : (populateMap b k).isSome = true
      · exact Or.inl hb
      · refine Or.inr ⟨h, ?_⟩
        simp [Option.isNone_iff_eq_none, Option.not_isSome_iff_eq_none.mp hb]

theorem nodup_combinedKeys (b c : CapabilityInfoList) :
    (combinedKeys b c).Nodup := by
  unfold combinedKeys
  refine (nodup_keysOf b).append ((nodup_keysOf c).filter _) ?_
  intro k hkb hkc
  rw [List.mem_filter] at hkc
  have hsome := (mem_keysOf_iff b k).mp hkb
  have hnone := hkc.2
  rw [Option.isNone_iff_eq_none] at hnone
  rw [hnone] at hsome
  exact Bool.noConfusion hsome

theorem diffKeys_perm (b c : CapabilityInfoList) :
    List.Perm (diffKeys b c) (combinedKeys b c) :=
  List.perm_insertionSort keyLE (combinedKeys b c)

theorem mem_diffKeys_iff (b c : CapabilityInfoList) (k : mapKey) :
    k ∈ diffKeys b c ↔
      ((populateMap b k).isSome = true ∨ (populateMap c k).isSome = true) := by
  rw [(diffKeys_perm b c).mem_iff, mem_combinedKeys_iff]

theorem nodup_diffKeys (b c : CapabilityInfoList) : (diffKeys b c).Nodup :=
  (diffKeys_perm b c).nodup_iff.mpr (nodup_combinedKeys b c)

theorem sorted_diffKeys (b c : CapabilityInfoList) :
    List.Sorted keyLE (diffKeys b c) :=
  List.sorted_insertionSort keyLE (combinedKeys b c)

theorem pairwise_keyLess_diffKeys (b c : CapabilityInfoList) :
    List.Pairwise keyLess (diffKeys b c) := by
  have hand := (sorted_diffKeys b c).and (nodup_diffKeys b c)
  refine hand.imp ?_
  rintro a b' ⟨hle, hne⟩
  rcases hle with h | ⟨h1, h2⟩
  · exact Or.inl h
  · refine Or.inr ⟨h1, lt_of_le_of_ne h2 ?_⟩
    intro hk
    apply hne
    cases a; cases b'
    simp only [mapKey.mk.injEq]
    exact ⟨hk, h1⟩

/-! ## Lemmas about the emitted entries -/

theorem diffEntryOf_key (bm cm : capabilitiesMap) (k : mapKey) (e : DiffEntry)
    (h : diffEntryOf bm cm k = some e) : e.key = k := by
  unfold diffEntryOf at h
  cases hb : bm k <;> cases hc : cm k <;> rw [hb, hc] at h
  · exact Option.noConfusion h
  · cases Option.some.inj h; rfl
  · cases Option.some.inj h; rfl
  · exact Option.noConfusion h

theorem diffEntryOf_isSome_iff (bm cm : capabilitiesMap) (k : mapKey) :
    (diffEntryOf bm cm k).isSome = true ↔ (bm k).isSome ≠ (cm k).isSome := by
  unfold diffEntryOf
  cases hb : bm k <;> cases hc : cm k <;> simp

theorem map_key_filterMap (bm cm : capabilitiesMap) (l : List mapKey) :
    (l.filterMap (diffEntryOf bm cm)).map DiffEntry.key =
      l.filter (fun k => (diffEntryOf bm cm k).isSome) := by
  induction l with
  | nil => rfl
  | cons k t ih =>
    rw [List.filterMap_cons, List.filter_cons]
    cases he : diffEntryOf bm cm k with
    | none => simp [he, ih]
    | some e => simp [he, ih, diffEntryOf_key bm cm k e he]

theorem map_key_diffEntries (b c : CapabilityInfoList) :
    (diffEntries b c).map DiffEntry.key =
      (diffKeys b c).filter
        (fun k => (diffEntryOf (populateMap b) (populateMap c) k).isSome) :=
  map_key_filterMap _ _ _

/-! ## Theorems for the claims about the reconciler -/

/-- C1: the reconciler emits its diff entries in sorted order — strictly
ascending by capability tag and, for equal tags, strictly ascending by
key string — and the key list it iterates is duplicate-free and covers
exactly the combined key set of the two snapshot maps. -/
theorem diff_entries_emitted_sorted (b c : CapabilityInfoList) :
    List.Pairwise keyLess ((diffEntries b c).map DiffEntry.key) ∧
    List.Pairwise keyLess (diffKeys b c) ∧
    (diffKeys b c).Nodup ∧
    ∀ k, (k ∈ diffKeys b c ↔
      ((populateMap b k).isSome = true ∨ (populateMap c k).isSome = true)) := by
  refine ⟨?_, pairwise_keyLess_diffKeys b c, nodup_diffKeys b c,
    mem_diffKeys_iff b c⟩
  rw [map_key_diffEntries]
  exact (pairwise_keyLess_diffKeys b c).sublist (List.filter_sublist _)

/-- C3: a key pair present in both snapshot maps is never reported: no
emitted entry carries it, whatever the two call paths are. -/
theorem shared_key_not_reported (b c : CapabilityInfoList) (k : mapKey)
    (hb : (populateMap b k).isSome = true)
    (hc : (populateMap c k).isSome = true) :
    k ∉ (diffEntries b c).map DiffEntry.key := by
  intro hmem
  rw [map_key_diffEntries, List.mem_filter] at hmem
  have hne := (diffEntryOf_isSome_iff (populateMap b) (populateMap c) k).mp hmem.2
  rw [hb, hc] at hne
  exact hne rfl

/-- A snapshot whose single record has key pair (0, "pkg"), with one call
path, used to witness the shared-key claim. -/
def sharedB : CapabilityInfoList := [⟨0, "pkg", [⟨none, "f"⟩]⟩]

/-- A snapshot with the same key pair as `sharedB` but a different call
path. -/
def sharedC : CapabilityInfoList := [⟨0, "pkg", [⟨none, "g"⟩]⟩]

/-- Witness for C3: both snapshots hold the key pair ("pkg", 0) with
different call paths, and no entry is emitted for it. -/
theorem shared_key_not_reported_witness :
    (populateMap sharedB ⟨"pkg", 0⟩).isSome = true ∧
    (populateMap sharedC ⟨"pkg", 0⟩).isSome = true ∧
    ⟨"pkg", 0⟩ ∉ (diffEntries sharedB sharedC).map DiffEntry.key :=
  ⟨by decide, by decide,
    shared_key_not_reported sharedB sharedC ⟨"pkg", 0⟩ (by decide) (by decide)⟩

/-- C5: the snapshot map is last-write-wins — it sends each key pair to
exactly the last input record bearing that pair, and any record it
returns is a member of the input bearing the looked-up key. -/
theorem populateMap_last_write_wins (cil : CapabilityInfoList) (k : mapKey) :
    populateMap cil k = (cil.filter fun ci => decide (keyOf ci = k)).getLast? ∧
    ∀ ci, populateMap cil k = some ci → ci ∈ cil ∧ keyOf ci = k := by
  refine ⟨populateMap_eq_getLast cil k, ?_⟩
  intro ci hci
  rw [populateMap_eq_getLast cil k] at hci
  have hmem := List.mem_of_mem_getLast? hci
  rw [List.mem_filter] at hmem
  exact ⟨hmem.1, of_decide_eq_true hmem.2⟩

/-- C8: the differences-found flag is set exactly when some key pair is
in exactly one of the two snapshot maps, and no key pair is reported
twice (in particular never both as gained and as lost). -/
theorem diff_flag_iff_key_sets_differ (b c : CapabilityInfoList) :
    (diffCapabilityInfoLists b c = true ↔
      ∃ k, (populateMap b k).isSome ≠ (populateMap c k).isSome) ∧
    ((diffEntries b c).map DiffEntry.key).Nodup := by
  constructor
  · have hflag : diffCapabilityInfoLists b c = true ↔ diffEntries b c ≠ [] := by
      rw [diffCapabilityInfoLists]
      cases diffEntries b c <;> simp
    rw [hflag]
    constructor
    · intro hne
      rcases List.exists_mem_of_ne_nil _ hne with ⟨e, he⟩
      rcases List.mem_filterMap.mp he with ⟨k, _, hk⟩
      refine ⟨k, ?_⟩
      apply (diffEntryOf_isSome_iff (populateMap b) (populateMap c) k).mp
      rw [hk]
      rfl
    · rintro ⟨k, hk⟩
      have hmem : k ∈ diffKeys b c := by
        rw [mem_diffKeys_iff]
        cases hbk : (populateMap b k).isSome <;>
          cases hck : (populateMap c k).isSome
        · rw [hbk, hck] at hk; exact absurd rfl hk
        · exact Or.inr rfl
        · exact Or.inl rfl
        · exact Or.inl rfl
      have hsome : (diffEntryOf (populateMap b) (populateMap c) k).isSome = true :=
        (diffEntryOf_isSome_iff (populateMap b) (populateMap c) k).mpr hk
      rcases Option.isSome_iff_exists.mp hsome with ⟨e, he⟩
      exact List.ne_nil_of_mem (List.mem_filterMap.mpr ⟨k, hmem, he⟩)
  · rw [map_key_diffEntries]
    exact (nodup_diffKeys b c).filter _

/-! ## Swapping the roles of the two snapshots -/

/-- Turn a gained entry into the corresponding lost entry and vice versa,
keeping the key and the call path. -/
def swapSide (e : DiffEntry) : DiffEntry :=
  match e with
  | ⟨Side.gained, k, p⟩ => ⟨Side.lost, k, p⟩
  | ⟨Side.lost, k, p⟩ => ⟨Side.gained, k, p⟩

theorem diffEntryOf_swap (bm cm : capabilitiesMap) (k : mapKey) :
    diffEntryOf cm bm k = (diffEntryOf bm cm k).map swapSide := by
  cases hb : bm k <;> cases hc : cm k <;>
    simp [diffEntryOf, swapSide, hb, hc]

theorem diffKeys_comm (b c : CapabilityInfoList) :
    diffKeys c b = diffKeys b c := by
  refine List.eq_of_perm_of_sorted ?_ (sorted_diffKeys c b) (sorted_diffKeys b c)
  refine (List.perm_ext_iff_of_nodup (nodup_diffKeys c b)
    (nodup_diffKeys b c)).mpr ?_
  intro k
  rw [mem_diffKeys_iff, mem_diffKeys_iff]
  exact or_comm

/-- C4: reconciling in the opposite order reports exactly the same keys,
with gained and lost swapped and the identical call path attached, and
returns the same differences-found flag. -/
theorem diff_reconcile_antisymmetric (b c : CapabilityInfoList) :
    diffEntries c b = (diffEntries b c).map swapSide ∧
    diffCapabilityInfoLists c b = diffCapabilityInfoLists b c := by
  have hent : diffEntries c b = (diffEntries b c).map swapSide := by
    rw [diffEntries, diffEntries, List.map_filterMap, diffKeys_comm]
    exact List.filterMap_congr
      (fun k _ => diffEntryOf_swap (populateMap b) (populateMap c) k)
  refine ⟨hent, ?_⟩
  rw [diffCapabilityInfoLists, diffCapabilityInfoLists, hent]
  cases diffEntries b c <;> rfl

/-! ## Permutation invariance of the reconciliation output -/

theorem filter_key_length_le_one (cil : CapabilityInfoList)
    (hn : (cil.map keyOf).Nodup) (k : mapKey) :
    (cil.filter fun ci => decide (keyOf ci = k)).length ≤ 1 := by
  cases hl : cil.filter fun ci => decide (keyOf ci = k) with
  | nil => simp
  | cons a t =>
    cases t with
    | nil => simp
    | cons b t' =>
      exfalso
      have hsub : List.Sublist (a :: b :: t') cil := hl ▸ List.filter_sublist cil
      have hmap : ((a :: b :: t').map keyOf).Nodup :=
        (hsub.map keyOf).nodup hn
      have hak : keyOf a = k := by
        have : a ∈ cil.filter fun ci => decide (keyOf ci = k) := by
          rw [hl]; exact List.mem_cons_self a _
        exact of_decide_eq_true (List.mem_filter.mp this).2
      have hbk : keyOf b = k := by
        have : b ∈ cil.filter fun ci => decide (keyOf ci = k) := by
          rw [hl]; exact List.mem_cons_of_mem a (List.mem_cons_self b _)
        exact of_decide_eq_true (List.mem_filter.mp this).2
      rw [List.map_cons, List.nodup_cons] at hmap
      exact hmap.1 (by
        rw [List.map_cons, hak, ← hbk]
        exact List.mem_cons_self (keyOf b) _)

theorem populateMap_eq_of_perm {b b' : CapabilityInfoList}
    (hp : List.Perm b b') (hn : (b.map keyOf).Nodup) :
    populateMap b = populateMap b' := by
  funext k
  rw [populateMap_eq_getLast, populateMap_eq_getLast]
  have hperm := hp.filter (fun ci => decide (keyOf ci = k))
  have hlen := filter_key_length_le_one b hn k
  cases hl : b.filter fun ci => decide (keyOf ci = k) with
  | nil =>
    rw [hl] at hperm
    rw [List.perm_nil.mp hperm.symm]
  | cons a t =>
    rw [hl] at hperm hlen
    cases t with
    | nil => rw [List.perm_singleton.mp hperm.symm]
    | cons b'' t' => simp at hlen

/-- A snapshot with two records bearing the same key pair but different
call paths; the analyzer never emits this shape, but the data structure
accepts it. -/
def dupSnapshot : CapabilityInfoList :=
  [⟨0, "p", []⟩, ⟨0, "p", [⟨none, "f"⟩]⟩]

/-- Counterexample to C2 as stated: reversing the record order of a
snapshot that holds two records with the same key pair changes which
record wins, so the emitted entries change. -/
theorem diff_perm_counterexample :
    List.Perm dupSnapshot dupSnapshot.reverse ∧
    diffEntries [] dupSnapshot ≠ diffEntries [] dupSnapshot.reverse :=
  ⟨(List.reverse_perm dupSnapshot).symm, by decide⟩

/-- C2 (amended): when no two records of a snapshot share a key pair —
which the analyzer guarantees — permuting the record order of either
snapshot leaves the emitted entries, their order, and the
differences-found flag unchanged. -/
theorem diff_perm_invariant (b b' c c' : CapabilityInfoList)
    (hb : List.Perm b b') (hc : List.Perm c c')
    (hbn : (b.map keyOf).Nodup) (hcn : (c.map keyOf).Nodup) :
    diffEntries b c = diffEntries b' c' ∧
    diffCapabilityInfoLists b c = diffCapabilityInfoLists b' c' := by
  have hmb := populateMap_eq_of_perm hb hbn
  have hmc := populateMap_eq_of_perm hc hcn
  have hcomb : List.Perm (combinedKeys b c) (combinedKeys b' c') := by
    unfold combinedKeys
    rw [← hmb]
    exact ((hb.map keyOf).dedup).append (((hc.map keyOf).dedup).filter _)
  have hkeys : diffKeys b c = diffKeys b' c' :=
    List.eq_of_perm_of_sorted
      ((diffKeys_perm b c).trans (hcomb.trans (diffKeys_perm b' c').symm))
      (sorted_diffKeys b c) (sorted_diffKeys b' c')
  have hent : diffEntries b c = diffEntries b' c' := by
    rw [diffEntries, diffEntries, ← hmb, ← hmc, ← hkeys]
  exact ⟨hent, by rw [diffCapabilityInfoLists, diffCapabilityInfoLists, hent]⟩

/-- A record with capability tag 0 and key "a". -/
def permRecA : CapabilityInfo := ⟨0, "a", []⟩

/-- A record with capability tag 1 and key "b". -/
def permRecB : CapabilityInfo := ⟨1, "b", []⟩

/-- Witness for the amended C2: swapping the two records of a
duplicate-free snapshot leaves the reconciliation output unchanged. -/
theorem diff_perm_invariant_witness :
    List.Perm [permRecA, permRecB] [permRecB, permRecA] ∧
    List.Perm ([] : CapabilityInfoList) [] ∧
    (([permRecA, permRecB] : CapabilityInfoList).map keyOf).Nodup ∧
    (([] : CapabilityInfoList).map keyOf).Nodup ∧
    (diffEntries [permRecA, permRecB] [] = diffEntries [permRecB, permRecA] [] ∧
      diffCapabilityInfoLists [permRecA, permRecB] [] =
        diffCapabilityInfoLists [permRecB, permRecA] []) :=
  ⟨List.Perm.swap permRecB permRecA [], List.Perm.refl [], by decide, by decide,
    diff_perm_invariant [permRecA, permRecB] [permRecB, permRecA] [] []
      (List.Perm.swap permRecB permRecA []) (List.Perm.refl [])
      (by decide) (by decide)⟩

/-! ## Environment model for the snapshot acquirer

`AnalyzeAtRevision` interacts with the operating system: it creates a
temporary directory, runs `git`, changes the working directory, and runs
the analyzer.  Each interaction is modelled by an oracle in `Env`
(giving the outcome the system would produce), and the embedding
returns, with the Go function's result, the trace of external actions
performed and the final working directory.  Error values are strings;
the `fmt.Errorf` wrapping of the source is rendered as prepending the
format's leading text. -/

/-- One external action performed by the acquirer. -/
inductive Action where
  | mkdirTemp
  | gitRevParseGitDir
  | gitRevParseRelDir
  | gitClone (gitdir tmpdir : String)
  | getwd
  | chdir (dir : String)
  | gitReset (rev : String)
  | runCapslock (pkg cwd : String)
deriving DecidableEq, Repr

/-- Drop one trailing newline, as `strings.TrimSuffix(s, "\n")` does. -/
def trimNewline (s : String) : String :=
  if s.endsWith "\n" then s.dropRight 1 else s

/-- Model of `filepath.Join` on the already-clean paths the tool builds. -/
def joinPath (a b : String) : String :=
  if b = "" then a else a ++ "/" ++ b

/-- Oracles for every external interaction of one acquisition: the
working directory at entry, the outcome of each subprocess or filesystem
call, and the analyzer's stdout together with its parse. -/
structure Env where
  initialCwd : String
  mkdirTempResult : Except String String
  gitDirOut : Except String String
  relDirOut : Except String String
  cloneErr : Option String
  getwdErr : Option String
  chdirErr : String → Option String
  resetErr : Option String
  capslockOut : Except String String
  parseOut : String → Except String CapabilityInfoList

/-- `callCapslock`: run the analyzer, then unmarshal its stdout. -/
def callCapslock (env : Env) : Except String CapabilityInfoList :=
  match env.capslockOut with
  | .error e => .error ("running capslock: " ++ e)
  | .ok out =>
    match env.parseOut out with
    | .error e => .error ("Couldn't parse analyzer output: " ++ e)
    | .ok cil => .ok cil

/-- `AnalyzeAtRevision`: for the sentinel revision "." run the analyzer
in place; otherwise create a temporary clone, reset it to the revision,
run the analyzer there, and restore the working directory through the
deferred `os.Chdir(wd)`, which is installed only once `os.Getwd`
succeeds and whose failure is surfaced only when no earlier error
exists.  Returns the Go result, the action trace, and the final working
directory. -/
def AnalyzeAtRevision (env : Env) (rev pkg : String) :
    Except String CapabilityInfoList × List Action × String :=
  if rev = "." then
    (callCapslock env, [Action.runCapslock pkg env.initialCwd], env.initialCwd)
  else
    match env.mkdirTempResult with
    | .error e =>
      (.error ("creating temporary directory: " ++ e),
        [Action.mkdirTemp], env.initialCwd)
    | .ok tmpdir =>
      match env.gitDirOut with
      | .error e =>
        (.error ("running git rev-parse --git-dir: " ++ e),
          [Action.mkdirTemp, Action.gitRevParseGitDir], env.initialCwd)
      | .ok gdOut =>
        let gitdir := trimNewline gdOut
        match env.relDirOut with
        | .error e =>
          (.error ("running git rev-parse: " ++ e),
            [Action.mkdirTemp, Action.gitRevParseGitDir,
              Action.gitRevParseRelDir], env.initialCwd)
        | .ok rdOut =>
          let rel := trimNewline rdOut
          match env.cloneErr with
          | some e =>
            (.error ("running git clone: " ++ e),
              [Action.mkdirTemp, Action.gitRevParseGitDir,
                Action.gitRevParseRelDir, Action.gitClone gitdir tmpdir],
              env.initialCwd)
          | none =>
            match env.getwdErr with
            | some e =>
              (.error e,
                [Action.mkdirTemp, Action.gitRevParseGitDir,
                  Action.gitRevParseRelDir, Action.gitClone gitdir tmpdir,
                  Action.getwd], env.initialCwd)
            | none =>
              let wd := env.initialCwd
              let setup : List Action :=
                [Action.mkdirTemp, Action.gitRevParseGitDir,
                  Action.gitRevParseRelDir, Action.gitClone gitdir tmpdir,
                  Action.getwd]
              let body : Except String CapabilityInfoList × List Action × String :=
                match env.chdirErr tmpdir with
                | some e =>
                  (.error ("switching to temporary directory: " ++ e),
                    [Action.chdir tmpdir], wd)
                | none =>
                  match env.resetErr with
                  | some e =>
                    (.error ("running git reset: " ++ e),
                      [Action.chdir tmpdir, Action.gitReset rev], tmpdir)
                  | none =>
                    let sub := joinPath tmpdir rel
                    match env.chdirErr sub with
                    | some e =>
                      (.error ("switching to temporary directory: " ++ e),
                        [Action.chdir tmpdir, Action.gitReset rev,
                          Action.chdir sub], tmpdir)
                    | none =>
                      (callCapslock env,
                        [Action.chdir tmpdir, Action.gitReset rev,
                          Action.chdir sub, Action.runCapslock pkg sub], sub)
              match body with
              | (res, btrace, bcwd) =>
                match env.chdirErr wd with
                | none => (res, setup ++ btrace ++ [Action.chdir wd], wd)
                | some e1 =>
                  (match res with
                    | .error e => .error e
                    | .ok _ => .error ("returning to working directory: " ++ e1),
                    setup ++ btrace ++ [Action.chdir wd], bcwd)

/-- Test for a directory change, used to state that no restoration (or
any other `chdir`) happens on a path. -/
def isChdir : Action → Bool
  | Action.chdir _ => true
  | _ => false

/-- C6: with the sentinel revision ".", acquisition performs exactly one
external action — running the analyzer in the caller's current working
directory — and returns its parsed output; no temporary directory, no
git introspection, no clone, no reset, no directory change. -/
theorem analyze_current_runs_in_place (env : Env) (pkg : String) :
    (AnalyzeAtRevision env "." pkg).1 = callCapslock env ∧
    (AnalyzeAtRevision env "." pkg).2.1 =
      [Action.runCapslock pkg env.initialCwd] ∧
    (AnalyzeAtRevision env "." pkg).2.2 = env.initialCwd ∧
    Action.mkdirTemp ∉ (AnalyzeAtRevision env "." pkg).2.1 ∧
    Action.gitRevParseGitDir ∉ (AnalyzeAtRevision env "." pkg).2.1 ∧
    (AnalyzeAtRevision env "." pkg).2.1.filter isChdir = [] := by
  refine ⟨rfl, rfl, rfl, ?_, ?_, rfl⟩ <;> simp [AnalyzeAtRevision]

/-- An environment whose temporary-directory creation fails; everything
else would succeed. -/
def envMkdirFail : Env :=
  ⟨"home", .error "disk full", .ok ".git\n", .ok "sub\n", none, none,
    fun _ => none, none, .ok "out", fun _ => .ok []⟩

/-- Counterexample to C7 as stated: when temporary-directory creation
fails, acquisition returns the error without ever attempting a directory
change — in particular no restoration to the original working directory
is attempted, because the working directory was never left. -/
theorem restore_not_attempted_on_mkdir_failure :
    (AnalyzeAtRevision envMkdirFail "main" "./...").1 =
      .error "creating temporary directory: disk full" ∧
    (AnalyzeAtRevision envMkdirFail "main" "./...").2.1 = [Action.mkdirTemp] ∧
    (AnalyzeAtRevision envMkdirFail "main" "./...").2.1.filter isChdir = [] :=
  ⟨rfl, rfl, rfl⟩

/-- C7 (amended): once the setup steps that precede the deferred restore
(temp dir, the two git introspections, the clone, and `Getwd`) have
succeeded, every exit path — navigation failure, reset failure, analyzer
failure, or success — ends by attempting `os.Chdir` back to the original
working directory; an earlier error is returned unchanged whatever the
restoration outcome, and a restoration failure is surfaced only when no
earlier error exists.  Failures before those setup steps return without
a restoration attempt, the working directory still being the original. -/
theorem restore_always_attempted (env : Env) (rev pkg tmpdir gd rd : String)
    (hrev : rev ≠ ".")
    (h1 : env.mkdirTempResult = .ok tmpdir)
    (h2 : env.gitDirOut = .ok gd)
    (h3 : env.relDirOut = .ok rd)
    (h4 : env.cloneErr = none)
    (h5 : env.getwdErr = none) :
    (AnalyzeAtRevision env rev pkg).2.1.getLast? =
      some (Action.chdir env.initialCwd) ∧
    (∀ e, env.chdirErr tmpdir = some e →
      (AnalyzeAtRevision env rev pkg).1 =
        .error ("switching to temporary directory: " ++ e)) ∧
    (env.chdirErr tmpdir = none → ∀ e, env.resetErr = some e →
      (AnalyzeAtRevision env rev pkg).1 =
        .error ("running git reset: " ++ e)) ∧
    (env.chdirErr tmpdir = none → env.resetErr = none →
      ∀ e, env.chdirErr (joinPath tmpdir (trimNewline rd)) = some e →
      (AnalyzeAtRevision env rev pkg).1 =
        .error ("switching to temporary directory: " ++ e)) ∧
    (env.chdirErr tmpdir = none → env.resetErr = none →
      env.chdirErr (joinPath tmpdir (trimNewline rd)) = none →
      env.chdirErr env.initialCwd = none →
      (AnalyzeAtRevision env rev pkg).1 = callCapslock env) ∧
    (env.chdirErr tmpdir = none → env.resetErr = none →
      env.chdirErr (joinPath tmpdir (trimNewline rd)) = none →
      ∀ e1, env.chdirErr env.initialCwd = some e1 →
      ∀ cil, callCapslock env = .ok cil →
      (AnalyzeAtRevision env rev pkg).1 =
        .error ("returning to working directory: " ++ e1)) ∧
    (env.chdirErr tmpdir = none → env.resetErr = none →
      env.chdirErr (joinPath tmpdir (trimNewline rd)) = none →
      ∀ e, callCapslock env = .error e →
      (AnalyzeAtRevision env rev pkg).1 = .error e) := by
  rw [AnalyzeAtRevision, if_neg hrev, h1, h2, h3, h4, h5]
  refine ⟨?_, ?_, ?_, ?_, ?_, ?_, ?_⟩
  · cases hc : env.chdirErr tmpdir <;>
      cases hr : env.resetErr <;>
      cases hs : env.chdirErr (joinPath tmpdir (trimNewline rd)) <;>
      cases hw : env.chdirErr env.initialCwd <;>
      simp [hc, hr, hs, hw, List.getLast?_concat]
  · intro e hc
    cases hw : env.chdirErr env.initialCwd <;> simp [hc, hw]
  · intro hc e hr
    cases hw : env.chdirErr env.initialCwd <;> simp [hc, hr, hw]
  · intro hc hr e hs
    cases hw : env.chdirErr env.initialCwd <;> simp [hc, hr, hs, hw]
  · intro hc hr hs hw
    simp [hc, hr, hs, hw]
  · intro hc hr hs e1 hw cil hcl
    simp [hc, hr, hs, hw, hcl]
  · intro hc hr hs e hcl
    cases hw : env.chdirErr env.initialCwd <;> simp [hc, hr, hs, hw, hcl]

/-- An environment in which every external step succeeds. -/
def envAllOk : Env :=
  ⟨"home", .ok "tmp", .ok ".git\n", .ok "sub\n", none, none,
    fun _ => none, none, .ok "out", fun _ => .ok []⟩

/-- Witness for the amended C7: in a fully succeeding run, the trace
ends with the restoration `chdir` to the original working directory and
the analyzer's parsed output is returned. -/
theorem restore_always_attempted_witness :
    ("main" : String) ≠ "." ∧
    envAllOk.mkdirTempResult = .ok "tmp" ∧
    envAllOk.gitDirOut = .ok ".git\n" ∧
    envAllOk.relDirOut = .ok "sub\n" ∧
    envAllOk.cloneErr = none ∧
    envAllOk.getwdErr = none ∧
    (AnalyzeAtRevision envAllOk "main" "./...").2.1.getLast? =
      some (Action.chdir envAllOk.initialCwd) ∧
    (AnalyzeAtRevision envAllOk "main" "./...").1 = callCapslock envAllOk := by
  have h := restore_always_attempted envAllOk "main" "./..." "tmp" ".git\n" "sub\n"
    (by decide) rfl rfl rfl rfl rfl
  exact ⟨by decide, rfl, rfl, rfl, rfl, rfl, h.1,
    h.2.2.2.2.1 rfl rfl rfl rfl⟩

/-! ## The revision-comparison tool's entry point -/

/-- How a run of a tool terminates: a process exit with a status code,
or a Go panic. -/
inductive ExitOutcome where
  | exited (code : Nat)
  | panicked (msg : String)
deriving DecidableEq, Repr

/-- The panic message of both tools when the argument count is wrong. -/
def wrongArgCount : String := "wrong number of arguments"

/-- The `main` of the git-diff tool: demand exactly three positional
arguments (baseline revision, current revision, package selector), run
the two acquisitions, exit 2 on either error, exit 1 when differences
were found, and fall off `main` (exit 0) otherwise.  The two acquisition
environments are passed separately since the two runs meet different
system states. -/
def mainGitDiff (env1 env2 : Env) (args : List String) : ExitOutcome :=
  if args.length ≠ 3 then ExitOutcome.panicked wrongArgCount
  else
    match (AnalyzeAtRevision env1 (args.getD 0 "") (args.getD 2 "")).1 with
    | .error _ => ExitOutcome.exited 2
    | .ok cil1 =>
      match (AnalyzeAtRevision env2 (args.getD 1 "") (args.getD 2 "")).1 with
      | .error _ => ExitOutcome.exited 2
      | .ok cil2 =>
        if diffCapabilityInfoLists cil1 cil2 then ExitOutcome.exited 1
        else ExitOutcome.exited 0

/-- Counterexample to C9 as stated: invoked with only the two revisions
and the selector omitted, the tool does not default the selector — it
panics on the argument count. -/
theorem selector_omitted_panics :
    mainGitDiff envAllOk envAllOk ["main", "."] =
      ExitOutcome.panicked wrongArgCount := rfl

/-- C9 (amended): the tool requires exactly three positional arguments
and panics otherwise (the selector is never defaulted); with three
arguments it exits 2 when either acquisition fails, and otherwise exits
1 or 0 according to the differences-found flag. -/
theorem gitDiff_exit_codes (env1 env2 : Env) (args : List String)
    (a0 a1 a2 : String) :
    (args.length ≠ 3 →
      mainGitDiff env1 env2 args = ExitOutcome.panicked wrongArgCount) ∧
    (∀ e, (AnalyzeAtRevision env1 a0 a2).1 = .error e →
      mainGitDiff env1 env2 [a0, a1, a2] = ExitOutcome.exited 2) ∧
    (∀ cil1 e, (AnalyzeAtRevision env1 a0 a2).1 = .ok cil1 →
      (AnalyzeAtRevision env2 a1 a2).1 = .error e →
      mainGitDiff env1 env2 [a0, a1, a2] = ExitOutcome.exited 2) ∧
    (∀ cil1 cil2, (AnalyzeAtRevision env1 a0 a2).1 = .ok cil1 →
      (AnalyzeAtRevision env2 a1 a2).1 = .ok cil2 →
      mainGitDiff env1 env2 [a0, a1, a2] =
        (if diffCapabilityInfoLists cil1 cil2 then ExitOutcome.exited 1
          else ExitOutcome.exited 0)) := by
  refine ⟨?_, ?_, ?_, ?_⟩
  · intro hlen
    rw [mainGitDiff, if_pos hlen]
  · intro e h1
    simp [mainGitDiff, h1]
  · intro cil1 e h1 h2
    simp [mainGitDiff, h1, h2]
  · intro cil1 cil2 h1 h2
    simp [mainGitDiff, h1, h2]

/-- Witness for the amended C9: with the selector omitted the tool
panics, and a fully succeeding three-argument run of two identical empty
snapshots exits 0. -/
theorem gitDiff_exit_codes_witness :
    (["main", "."] : List String).length ≠ 3 ∧
    (AnalyzeAtRevision envAllOk "." "p").1 = .ok [] ∧
    mainGitDiff envAllOk envAllOk ["x"] = ExitOutcome.panicked wrongArgCount ∧
    mainGitDiff envAllOk envAllOk [".", ".", "p"] = ExitOutcome.exited 0 := by
  refine ⟨by decide, rfl, ?_, ?_⟩
  · exact (gitDiff_exit_codes envAllOk envAllOk ["x"] "." "." "p").1 (by decide)
  · have h := (gitDiff_exit_codes envAllOk envAllOk [".", ".", "p"]
      "." "." "p").2.2.2 [] [] rfl rfl
    simpa using h

/-! ## The version-comparison tool

The second program creates one temporary workspace per version with
`go mod init` and `go get`, captures the first version's capabilities as
JSON into a file, then runs the analyzer's own comparison mode against
that file.  A Go error is modelled with the exit-code information that
`errors.As`/`exec.ExitError` would recover through the `fmt.Errorf`
wrapping chain. -/

/-- A Go error value: `exitCode = some n` when the error is (or wraps)
an `exec.ExitError` whose process state reports exit code `n`. -/
structure GoErr where
  exitCode : Option Nat
  msg : String
deriving DecidableEq, Repr

/-- `fmt.Errorf` wrapping with `%w`: the message grows, the wrapped
`ExitError` (if any) stays reachable by `errors.As`. -/
def wrapB (pre : String) (e : GoErr) : GoErr :=
  ⟨e.exitCode, pre ++ e.msg⟩

/-- Oracles for the version-comparison tool's external steps.  The
workspace-creation oracles are keyed by the `pkg@version` argument of
the `MakeWorkspace` call, the `chdir` oracle by the target directory,
and the comparison-run oracle by the capabilities-file path passed to
the analyzer. -/
structure EnvB where
  mkdirTempRes : String → Except GoErr String
  chdirRes : String → Option GoErr
  modInitRes : String → Option GoErr
  goGetRes : String → Option GoErr
  getwdRes : Except GoErr String
  createFileRes : Option GoErr
  capslockJsonRes : Option GoErr
  closeRes : Option GoErr
  compareRes : String → Option GoErr

/-- `MakeWorkspace`: temp dir, `chdir`, `go mod init`, `go get`. -/
def MakeWorkspace (env : EnvB) (pkg : String) : Option GoErr :=
  match env.mkdirTempRes pkg with
  | .error e => some (wrapB "creating temporary directory: " e)
  | .ok tmpdir =>
    match env.chdirRes tmpdir with
    | some e => some (wrapB "switching to temporary directory: " e)
    | none =>
      match env.modInitRes pkg with
      | some e => some (wrapB "running go mod init: " e)
      | none =>
        match env.goGetRes pkg with
        | some e => some (wrapB "running go get: " e)
        | none => none

/-- `CreateCapabilitiesFile`: resolve the current directory, create
`capslock.json` there, fill it with the analyzer's JSON output, and
close it; returns the file's full path with the error, if any. -/
def CreateCapabilitiesFile (env : EnvB) (pkg : String) :
    String × Option GoErr :=
  match env.getwdRes with
  | .error e => ("", some e)
  | .ok dir =>
    match env.createFileRes with
    | some e =>
      ("", some (wrapB "creating temporary file for writing capabilities: " e))
    | none =>
      let filename := dir ++ "/capslock.json"
      match env.capslockJsonRes with
      | some e => (filename, some (wrapB "running capslock: " e))
      | none => (filename, env.closeRes)

/-- `ComparePackages`: workspace for version 1, capture its
capabilities, workspace for version 2, then the analyzer's comparison
mode; the Bool reports whether that final comparison run was reached. -/
def ComparePackages (env : EnvB) (pkg v1 v2 : String) : Bool × Option GoErr :=
  let p1 := pkg ++ "@" ++ v1
  let p2 := pkg ++ "@" ++ v2
  match MakeWorkspace env p1 with
  | some e => (false, some (wrapB "creating temporary workspace for analyzing: " e))
  | none =>
    match CreateCapabilitiesFile env pkg with
    | (_, some e) => (false, some e)
    | (filename, none) =>
      match MakeWorkspace env p2 with
      | some e =>
        (false, some (wrapB "creating temporary workspace for analyzing: " e))
      | none =>
        (true, (env.compareRes filename).map (wrapB "running capslock compare: "))

/-- How a run of the version-comparison tool terminates: clean exit,
`log.Fatal` after logging, a verbatim propagated exit code, or a panic
on the argument count. -/
inductive OutcomeB where
  | ok
  | fatalLogged (msg : String)
  | exitedCode (n : Nat)
  | panicked (msg : String)
deriving DecidableEq, Repr

/-- The `main` of the version-comparison tool: three positional
arguments; on error, propagate the exit code verbatim when the
comparison run was reached and the error carries one, otherwise log and
terminate fatally. -/
def mainCompare (env : EnvB) (args : List String) : OutcomeB :=
  if args.length ≠ 3 then OutcomeB.panicked wrongArgCount
  else
    match ComparePackages env (args.getD 0 "") (args.getD 1 "") (args.getD 2 "") with
    | (_, none) => OutcomeB.ok
    | (ranComparison, some e) =>
      match ranComparison, e.exitCode with
      | true, some n => OutcomeB.exitedCode n
      | true, none => OutcomeB.fatalLogged ("Error: " ++ e.msg)
      | false, _ => OutcomeB.fatalLogged ("Error: " ++ e.msg)

/-- C10: every error of the version-comparison tool is logged and
terminates fatally, except an analyzer comparison-mode exit status —
possible only once both workspaces were created and the capabilities
file written — which is propagated verbatim without logging. -/
theorem compare_error_reporting (env : EnvB) (pkg v1 v2 : String) :
    ((ComparePackages env pkg v1 v2).2 = none →
      mainCompare env [pkg, v1, v2] = OutcomeB.ok) ∧
    (∀ e n, (ComparePackages env pkg v1 v2).2 = some e →
      (ComparePackages env pkg v1 v2).1 = true → e.exitCode = some n →
      mainCompare env [pkg, v1, v2] = OutcomeB.exitedCode n) ∧
    (∀ e, (ComparePackages env pkg v1 v2).2 = some e →
      ((ComparePackages env pkg v1 v2).1 = false ∨ e.exitCode = none) →
      mainCompare env [pkg, v1, v2] = OutcomeB.fatalLogged ("Error: " ++ e.msg)) ∧
    ((ComparePackages env pkg v1 v2).1 = true →
      MakeWorkspace env (pkg ++ "@" ++ v1) = none ∧
      (CreateCapabilitiesFile env pkg).2 = none ∧
      MakeWorkspace env (pkg ++ "@" ++ v2) = none) := by
  have hmain : mainCompare env [pkg, v1, v2] =
      (match ComparePackages env pkg v1 v2 with
        | (_, none) => OutcomeB.ok
        | (ranComparison, some e) =>
          match ranComparison, e.exitCode with
          | true, some n => OutcomeB.exitedCode n
          | true, none => OutcomeB.fatalLogged ("Error: " ++ e.msg)
          | false, _ => OutcomeB.fatalLogged ("Error: " ++ e.msg)) := by
    rw [mainCompare, if_neg (by simp)]
    rfl
  refine ⟨?_, ?_, ?_, ?_⟩
  · intro hres
    rcases hcp : ComparePackages env pkg v1 v2 with ⟨ran, r⟩
    rw [hcp] at hres
    rw [hmain, hcp]
    simp only at hres
    simp [hres]
  · intro e n hres hran hcode
    rcases hcp : ComparePackages env pkg v1 v2 with ⟨ran, r⟩
    rw [hcp] at hres hran
    rw [hmain, hcp]
    simp only at hres hran
    simp [hres, hran, hcode]
  · intro e hres hor
    rcases hcp : ComparePackages env pkg v1 v2 with ⟨ran, r⟩
    rw [hcp] at hres hor
    rw [hmain, hcp]
    simp only at hres
    rcases hor with hran | hcode
    · simp only at hran
      simp [hres, hran]
    · cases ran <;> simp [hres, hcode]
  · intro hran
    rcases hw1 : MakeWorkspace env (pkg ++ "@" ++ v1) with _ | e1
    · rcases hcf : CreateCapabilitiesFile env pkg with ⟨fn, res⟩
      cases res with
      | none =>
        rcases hw2 : MakeWorkspace env (pkg ++ "@" ++ v2) with _ | e3
        · exact ⟨rfl, rfl, rfl⟩
        · have hcp : ComparePackages env pkg v1 v2 =
              (false, some (wrapB "creating temporary workspace for analyzing: " e3)) := by
            simp only [ComparePackages, hw1, hcf, hw2]
          rw [hcp] at hran
          simp at hran
      | some e2 =>
        have hcp : ComparePackages env pkg v1 v2 = (false, some e2) := by
          simp only [ComparePackages, hw1, hcf]
        rw [hcp] at hran
        simp at hran
    · have hcp : ComparePackages env pkg v1 v2 =
          (false, some (wrapB "creating temporary workspace for analyzing: " e1)) := by
        simp only [ComparePackages, hw1]
      rw [hcp] at hran
      simp at hran

/-- An environment for the version-comparison tool in which every setup
step succeeds and the analyzer's comparison mode exits with status 1. -/
def envBDiff : EnvB :=
  ⟨fun _ => .ok "t", fun _ => none, fun _ => none, fun _ => none, .ok "w",
    none, none, none, fun _ => some ⟨some 1, "exit status 1"⟩⟩

/-- Witness for C10: when the comparison run is reached and exits with
status 1, the tool exits with status 1 itself instead of logging. -/
theorem compare_error_reporting_witness :
    (ComparePackages envBDiff "m" "v1" "v2").2 =
      some ⟨some 1, "running capslock compare: exit status 1"⟩ ∧
    (ComparePackages envBDiff "m" "v1" "v2").1 = true ∧
    mainCompare envBDiff ["m", "v1", "v2"] = OutcomeB.exitedCode 1 :=
  ⟨rfl, rfl,
    (compare_error_reporting envBDiff "m" "v1" "v2").2.1
      ⟨some 1, "running capslock compare: exit status 1"⟩ 1 rfl rfl rfl⟩

end Capslock
